import Mathlib

/-!
Verification development for the ck3save library (Crusader Kings III save
reader/melter).  The definitions below shallowly embed the Rust sources:
`src/ck3date.rs`, `src/flavor.rs`, `src/melt.rs` and `src/file.rs`.  Pieces of
the program that live outside the provided sources (the `SaveHeader` module,
the jomini text writer and binary token reader) are modelled from the
specification and are marked as such in their doc comments.  Machine integers
are modelled as `Nat`/`Int` with explicit wrapping where the code casts;
IEEE floating point values are modelled as exact scaled integers.
-/

namespace Ck3Save

/-! ### Digit strings (decimal and hexadecimal) -/

/-- ASCII digit character for a value `d < 10`. -/
def digitChar (d : Nat) : Char := Char.ofNat (48 + d)

/-- Lowercase hexadecimal digit character for a value `d < 16`. -/
def hexDigitChar (d : Nat) : Char :=
  if d < 10 then Char.ofNat (48 + d) else Char.ofNat (87 + d)

/-- Is `c` an ASCII decimal digit? -/
def isAsciiDigit (c : Char) : Bool := 48 ≤ c.toNat && c.toNat ≤ 57

/-- Is `c` a lowercase ASCII hexadecimal digit? -/
def isHexLowerDigit (c : Char) : Bool :=
  isAsciiDigit c || (97 ≤ c.toNat && c.toNat ≤ 102)

/-- Numeric value of an ASCII decimal digit. -/
def charDigitVal (c : Char) : Nat := c.toNat - 48

/-- Numeric value of a lowercase hexadecimal digit. -/
def hexVal (c : Char) : Nat := if c.toNat ≤ 57 then c.toNat - 48 else c.toNat - 87

/-- Little-endian base-`b` digits of `n`, by structural recursion on a fuel
bound (so that concrete instances reduce inside the kernel).  Agrees with
`Nat.digits b` whenever `n ≤ fuel` (see `digitsAux_eq_digits`). -/
def digitsAux (b : Nat) : Nat → Nat → List Nat
  | _, 0 => []
  | 0, _ + 1 => []
  | f + 1, n + 1 => (n + 1) % b :: digitsAux b f ((n + 1) / b)

/-- Little-endian base-`b` digits of `n`. -/
def natDigitsLE (b n : Nat) : List Nat := digitsAux b n n

theorem digitsAux_eq_digits (b : Nat) (hb : 1 < b) :
    ∀ f n, n ≤ f → digitsAux b f n = Nat.digits b n := by
  intro f
  induction f with
  | zero => intro n hn; interval_cases n; simp [digitsAux]
  | succ f ih =>
      intro n hn
      match n with
      | 0 => simp [digitsAux]
      | n + 1 =>
          rw [digitsAux, Nat.digits_def' hb (Nat.succ_pos n), ih]
          have h2 : (n + 1) / b < n + 1 := Nat.div_lt_self (Nat.succ_pos n) hb
          omega

theorem natDigitsLE_eq_digits (b n : Nat) (hb : 1 < b) :
    natDigitsLE b n = Nat.digits b n :=
  digitsAux_eq_digits b hb n n le_rfl

/-- Decimal rendering of a natural number, as Rust's `format!("{}", n)`
produces it. -/
def natRepr (n : Nat) : List Char :=
  if n = 0 then ['0'] else (natDigitsLE 10 n).reverse.map digitChar

/-- Decimal rendering of an integer, as Rust's `format!("{}", i)` produces
it. -/
def intRepr (i : Int) : List Char :=
  if i < 0 then '-' :: natRepr i.natAbs else natRepr i.natAbs

/-- Fold a big-endian digit list back into a number. -/
def parseBase (b : Nat) (l : List Nat) : Nat := l.foldl (fun a d => a * b + d) 0

theorem foldl_base_reverse (b : Nat) (l : List Nat) (acc : Nat) :
    (l.reverse).foldl (fun a d => a * b + d) acc =
      acc * b ^ l.length + Nat.ofDigits b l := by
  induction l generalizing acc with
  | nil => simp [Nat.ofDigits_nil]
  | cons d t ih =>
      rw [List.reverse_cons, List.foldl_append, ih]
      simp only [List.foldl_cons, List.foldl_nil, Nat.ofDigits_cons, List.length_cons]
      ring

theorem parseBase_digits_reverse (b n : Nat) (_hb : 1 < b) :
    parseBase b ((Nat.digits b n).reverse) = n := by
  unfold parseBase
  rw [foldl_base_reverse]
  simp [Nat.ofDigits_digits]

theorem digitChar_isDigit : ∀ d, d < 10 → isAsciiDigit (digitChar d) = true := by decide

theorem charDigitVal_digitChar : ∀ d, d < 10 → charDigitVal (digitChar d) = d := by decide

theorem natRepr_digit_chars (n : Nat) : (natRepr n).all isAsciiDigit = true := by
  unfold natRepr
  split
  · decide
  · rw [List.all_eq_true]
    intro c hc
    rw [List.mem_map] at hc
    obtain ⟨d, hd, rfl⟩ := hc
    rw [List.mem_reverse, natDigitsLE_eq_digits 10 n (by norm_num)] at hd
    exact digitChar_isDigit d (Nat.digits_lt_base (by norm_num) hd)

theorem natRepr_vals (n : Nat) (h : n ≠ 0) :
    (natRepr n).map charDigitVal = (Nat.digits 10 n).reverse := by
  unfold natRepr
  rw [if_neg h, natDigitsLE_eq_digits 10 n (by norm_num), List.map_map]
  have : ∀ d ∈ (Nat.digits 10 n).reverse, (charDigitVal ∘ digitChar) d = id d := by
    intro d hd
    rw [List.mem_reverse] at hd
    exact charDigitVal_digitChar d (Nat.digits_lt_base (by norm_num) hd)
  rw [List.map_congr_left this, List.map_id]

theorem parseBase_natRepr (n : Nat) :
    parseBase 10 ((natRepr n).map charDigitVal) = n := by
  by_cases h : n = 0
  · subst h; decide
  · rw [natRepr_vals n h]
    exact parseBase_digits_reverse 10 n (by norm_num)

theorem natRepr_ne_nil (n : Nat) : natRepr n ≠ [] := by
  unfold natRepr
  split
  · simp
  · next h =>
    rw [natDigitsLE_eq_digits 10 n (by norm_num)]
    simp [Nat.digits_ne_nil_iff_ne_zero, h]

theorem natRepr_no_dot (n : Nat) : ∀ c ∈ natRepr n, c ≠ '.' := by
  intro c hc
  have h := natRepr_digit_chars n
  rw [List.all_eq_true] at h
  have hd := h c hc
  intro hrfl
  subst hrfl
  simp [isAsciiDigit] at hd

theorem natRepr_head_le_nine (n : Nat) :
    ∀ c, (natRepr n).head? = some c → ¬ c > '9' := by
  intro c hc
  have h := natRepr_digit_chars n
  rw [List.all_eq_true] at h
  have hmem : c ∈ natRepr n := List.mem_of_mem_head? hc
  have hd := h c hmem
  simp only [isAsciiDigit, Bool.and_eq_true, decide_eq_true_eq] at hd
  intro hgt
  have : c.toNat > 57 := hgt
  omega

end Ck3Save

namespace Ck3Save

/-! ### Hexadecimal length field -/

/-- Fixed-width 16-digit lowercase hexadecimal rendering of `n < 2^64`
(zero-padded on the left), as the save header's length field stores a `u64`. -/
def hexEncode16 (n : Nat) : List Char :=
  List.replicate (16 - (natDigitsLE 16 n).length) '0' ++
    (natDigitsLE 16 n).reverse.map hexDigitChar

/-- Parse a fixed-width 16-digit lowercase hexadecimal field. -/
def parseHex16 (l : List Char) : Option Nat :=
  if l.length = 16 ∧ l.all isHexLowerDigit = true then some (parseBase 16 (l.map hexVal))
  else none

theorem hexDigitChar_isHex : ∀ d, d < 16 → isHexLowerDigit (hexDigitChar d) = true := by
  decide

theorem hexVal_hexDigitChar : ∀ d, d < 16 → hexVal (hexDigitChar d) = d := by decide

theorem digits16_len_le (n : Nat) (h : n < 2 ^ 64) : (Nat.digits 16 n).length ≤ 16 := by
  rcases Nat.eq_zero_or_pos n with hz | hp
  · subst hz; simp
  · rw [Nat.digits_len 16 n (by norm_num) (Nat.pos_iff_ne_zero.mp hp)]
    have h16 : n < 16 ^ 16 := by
      have : (16 : Nat) ^ 16 = 2 ^ 64 := by norm_num
      omega
    have := Nat.log_lt_of_lt_pow (Nat.pos_iff_ne_zero.mp hp) h16
    omega

theorem hexEncode16_length (n : Nat) (h : n < 2 ^ 64) : (hexEncode16 n).length = 16 := by
  unfold hexEncode16
  rw [List.length_append, List.length_replicate, List.length_map, List.length_reverse,
    natDigitsLE_eq_digits 16 n (by norm_num)]
  have := digits16_len_le n h
  omega

theorem foldl_replicate_zero (b j : Nat) :
    List.foldl (fun a d => a * b + d) 0 (List.replicate j 0) = 0 := by
  induction j with
  | zero => rfl
  | succ j ih => simpa [List.replicate_succ] using ih

theorem parseHex16_hexEncode16 (n : Nat) (h : n < 2 ^ 64) :
    parseHex16 (hexEncode16 n) = some n := by
  unfold parseHex16
  have hlen := hexEncode16_length n h
  have hall : (hexEncode16 n).all isHexLowerDigit = true := by
    rw [List.all_eq_true]
    intro c hc
    unfold hexEncode16 at hc
    rw [List.mem_append] at hc
    rcases hc with hc | hc
    · rw [List.eq_of_mem_replicate hc]; decide
    · rw [List.mem_map] at hc
      obtain ⟨d, hd, rfl⟩ := hc
      rw [List.mem_reverse, natDigitsLE_eq_digits 16 n (by norm_num)] at hd
      exact hexDigitChar_isHex d (Nat.digits_lt_base (by norm_num) hd)
  rw [if_pos ⟨hlen, hall⟩]
  congr 1
  unfold hexEncode16
  rw [List.map_append, List.map_map]
  have hmapped : List.map (hexVal ∘ hexDigitChar) (natDigitsLE 16 n).reverse
      = (Nat.digits 16 n).reverse := by
    rw [natDigitsLE_eq_digits 16 n (by norm_num)]
    have : ∀ d ∈ (Nat.digits 16 n).reverse, (hexVal ∘ hexDigitChar) d = id d := by
      intro d hd
      rw [List.mem_reverse] at hd
      exact hexVal_hexDigitChar d (Nat.digits_lt_base (by norm_num) hd)
    rw [List.map_congr_left this, List.map_id]
  rw [hmapped]
  have hrep : List.map hexVal (List.replicate (16 - (natDigitsLE 16 n).length) '0')
      = List.replicate (16 - (natDigitsLE 16 n).length) 0 := by
    rw [List.map_replicate]; rfl
  rw [hrep]
  unfold parseBase
  rw [List.foldl_append, foldl_replicate_zero]
  exact parseBase_digits_reverse 16 n (by norm_num)

/-! ### SaveHeader

Modelled from the spec: the `SaveHeader` module is not among the provided
sources (only its callers are).  Per the specification it is a fixed-width
24-byte ASCII record `"SAV" + kind (3 decimal characters, value 0..7) + one
space + the metadata byte length in lowercase hexadecimal + a newline`, whose
`metadata_len` is a `u64`; the width of the hexadecimal field is chosen as 16
digits so that the record is exactly 24 bytes as the specification's invariant
demands.  The eight kinds are numbered in the order the specification lists
them. -/

inductive SaveHeaderKind where
  | text
  | binary
  | unifiedText
  | unifiedBinary
  | splitText
  | splitBinary
  | compressedText
  | compressedBinary
  deriving DecidableEq, Repr

/-- Modelled from the spec: the kind digit of a header kind. -/
def kindCode : SaveHeaderKind → Nat
  | .text => 0
  | .binary => 1
  | .unifiedText => 2
  | .unifiedBinary => 3
  | .splitText => 4
  | .splitBinary => 5
  | .compressedText => 6
  | .compressedBinary => 7

/-- Modelled from the spec: recover a header kind from its kind digit. -/
def kindOfCode : Nat → Option SaveHeaderKind
  | 0 => some .text
  | 1 => some .binary
  | 2 => some .unifiedText
  | 3 => some .unifiedBinary
  | 4 => some .splitText
  | 5 => some .splitBinary
  | 6 => some .compressedText
  | 7 => some .compressedBinary
  | _ => none

/-- Modelled from the spec: the parsed first line of a save. -/
structure SaveHeader where
  kind : SaveHeaderKind
  metadataLen : Nat
  deriving DecidableEq, Repr

/-- Modelled from the spec: `SaveHeader::write` emits exactly 24 bytes; the
`u64` length field wraps modulo `2^64` as the Rust cast does. -/
def saveHeaderWrite (h : SaveHeader) : List Char :=
  'S' :: 'A' :: 'V' :: '0' :: '0' :: digitChar (kindCode h.kind) :: ' ' ::
    (hexEncode16 (h.metadataLen % 2 ^ 64) ++ ['\n'])

/-- Parse the three-decimal-character kind field. -/
def parseDec3 (l : List Char) : Option Nat :=
  match l with
  | [a, b, c] =>
      if isAsciiDigit a && isAsciiDigit b && isAsciiDigit c then
        some (100 * charDigitVal a + 10 * charDigitVal b + charDigitVal c)
      else none
  | _ => none

/-- Modelled from the spec: `SaveHeader::parse` over (at least) 24 bytes.
Fails when the magic is not `SAV`, the kind field is not decimal or out of
range, or the length field is not lowercase hexadecimal followed by a
newline. -/
def parseSaveHeader (l : List Char) : Option SaveHeader :=
  if l.take 3 = ['S', 'A', 'V'] then
    match parseDec3 ((l.drop 3).take 3) with
    | none => none
    | some kd =>
        match kindOfCode kd with
        | none => none
        | some k =>
            if (l.drop 6).take 1 = [' '] then
              match parseHex16 ((l.drop 7).take 16) with
              | none => none
              | some len => if (l.drop 23).take 1 = ['\n'] then some ⟨k, len⟩ else none
            else none
  else none

theorem saveHeaderWrite_length (h : SaveHeader) : (saveHeaderWrite h).length = 24 := by
  have hl := hexEncode16_length (h.metadataLen % 2 ^ 64) (Nat.mod_lt _ (by norm_num))
  simp only [saveHeaderWrite, List.length_cons, List.length_append, List.length_singleton,
    List.length_nil, hl]

theorem kindOfCode_kindCode (k : SaveHeaderKind) : kindOfCode (kindCode k) = some k := by
  cases k <;> rfl

theorem kindCode_lt_ten (k : SaveHeaderKind) : kindCode k < 10 := by
  cases k <;> simp [kindCode]

theorem parseSaveHeader_shape (k : SaveHeaderKind) (hx t : List Char)
    (hlen : hx.length = 16) :
    parseSaveHeader ('S' :: 'A' :: 'V' :: '0' :: '0' :: digitChar (kindCode k) :: ' ' ::
        (hx ++ ('\n' :: t)))
      = (parseHex16 hx).map (fun len => ⟨k, len⟩) := by
  have htake3 : ('S' :: 'A' :: 'V' :: '0' :: '0' :: digitChar (kindCode k) :: ' ' ::
      (hx ++ ('\n' :: t))).take 3 = ['S', 'A', 'V'] := rfl
  have hkd : (('S' :: 'A' :: 'V' :: '0' :: '0' :: digitChar (kindCode k) :: ' ' ::
      (hx ++ ('\n' :: t))).drop 3).take 3 = ['0', '0', digitChar (kindCode k)] := rfl
  have hsp : (('S' :: 'A' :: 'V' :: '0' :: '0' :: digitChar (kindCode k) :: ' ' ::
      (hx ++ ('\n' :: t))).drop 6).take 1 = [' '] := rfl
  have hd7 : ('S' :: 'A' :: 'V' :: '0' :: '0' :: digitChar (kindCode k) :: ' ' ::
      (hx ++ ('\n' :: t))).drop 7 = hx ++ ('\n' :: t) := rfl
  have hd23 : ('S' :: 'A' :: 'V' :: '0' :: '0' :: digitChar (kindCode k) :: ' ' ::
      (hx ++ ('\n' :: t))).drop 23 = (hx ++ ('\n' :: t)).drop 16 := rfl
  have hdec : parseDec3 ['0', '0', digitChar (kindCode k)] = some (kindCode k) := by
    show (if (isAsciiDigit '0' && isAsciiDigit '0' && isAsciiDigit (digitChar (kindCode k)))
          = true then
        some (100 * charDigitVal '0' + 10 * charDigitVal '0' +
          charDigitVal (digitChar (kindCode k)))
      else none) = some (kindCode k)
    rw [if_pos]
    · have h0 : charDigitVal '0' = 0 := by decide
      rw [h0, charDigitVal_digitChar _ (kindCode_lt_ten k)]
      norm_num
    · have hkd := digitChar_isDigit (kindCode k) (kindCode_lt_ten k)
      have h0d : isAsciiDigit '0' = true := by decide
      simp [hkd, h0d]
  unfold parseSaveHeader
  rw [htake3, if_pos rfl, hkd, hdec]
  show (match kindOfCode (kindCode k) with
    | none => none
    | some k1 => _) = _
  rw [kindOfCode_kindCode]
  show (if _ = [' '] then _ else none) = _
  rw [hsp, if_pos rfl, hd7, List.take_left' hlen, hd23, List.drop_left' hlen]
  cases hp : parseHex16 hx with
  | none => rfl
  | some len => rfl

theorem parseSaveHeader_write (h : SaveHeader) (t : List Char) :
    parseSaveHeader (saveHeaderWrite h ++ t) = some ⟨h.kind, h.metadataLen % 2 ^ 64⟩ := by
  have hmod : h.metadataLen % 2 ^ 64 < 2 ^ 64 := Nat.mod_lt _ (by norm_num)
  have hlen := hexEncode16_length (h.metadataLen % 2 ^ 64) hmod
  unfold saveHeaderWrite
  simp only [List.cons_append, List.append_assoc, List.singleton_append, List.nil_append]
  rw [parseSaveHeader_shape h.kind _ t hlen, parseHex16_hexEncode16 _ hmod]
  rfl

end Ck3Save

namespace Ck3Save

/-! ### Ck3Date (src/ck3date.rs) -/

/-- `DAYS_PER_MONTH` from `ck3date.rs`. -/
def daysPerMonth : List Nat := [0, 31, 28, 31, 30, 31, 30, 31, 31, 30, 31, 30, 31]

/-- A CK3 date; every year is treated as a non-leap year.  Embeds
`Ck3Date { year: u16, month: u8, day: u8 }`. -/
structure Ck3Date where
  year : Nat
  month : Nat
  day : Nat
  deriving DecidableEq, Repr

/-- Embeds `Ck3Date::new`: the date must have nonzero components, a month
with an entry in `DAYS_PER_MONTH`, and a day within that month. -/
def Ck3Date.new (year month day : Nat) : Option Ck3Date :=
  if year ≠ 0 ∧ month ≠ 0 ∧ day ≠ 0 then
    match daysPerMonth.get? month with
    | some days => if day ≤ days then some ⟨year, month, day⟩ else none
    | none => none
  else none

/-- Embeds `Ck3Date::ck3_fmt`: `format!("{}.{}.{}", year, month, day)`. -/
def Ck3Date.ck3Fmt (d : Ck3Date) : List Char :=
  natRepr d.year ++ '.' :: (natRepr d.month ++ '.' :: natRepr d.day)

/-- Embeds jomini's `Scalar::to_u64` as used by `parse_from_str`: a nonempty
all-digit string below `2^64`. -/
def toU64 (l : List Char) : Option Nat :=
  if l = [] then none
  else if l.all isAsciiDigit then
    if parseBase 10 (l.map charDigitVal) < 2 ^ 64 then
      some (parseBase 10 (l.map charDigitVal))
    else none
  else none

/-- Embeds the span-splitting loop of `Ck3Date::parse_from_str`: scan the
characters, recording a span at each `'.'` (at most two dots), rejecting any
character that is neither a digit nor a dot; the trailing span is whatever
remains when the input ends. -/
def spansGo : List Char → Nat → List Char → List Char → List Char →
    Option (List Char × List Char × List Char)
  | [], _, cur, s1, s2 => some (s1, s2, cur)
  | c :: rest, st, cur, s1, s2 =>
      if c = '.' then
        if st = 0 then spansGo rest 1 [] cur s2
        else if st = 1 then spansGo rest 2 [] s1 cur
        else none
      else if isAsciiDigit c then spansGo rest st (cur ++ [c]) s1 s2
      else none

/-- Embeds `Ck3Date::parse_from_str`: the first-byte fast-path check, the
span-splitting loop, `Scalar::to_u64` on each span, the `u16`/`u8` casts and
the final `Ck3Date::new` validation. -/
def parseFromStr (s : List Char) : Option Ck3Date :=
  match s.head? with
  | none => none
  | some c =>
      if c > '9' then none
      else
        match spansGo s 0 [] [] [] with
        | none => none
        | some (s1, s2, s3) =>
            match toU64 s1 with
            | none => none
            | some y =>
                match toU64 s2 with
                | none => none
                | some m =>
                    match toU64 s3 with
                    | none => none
                    | some d => Ck3Date.new (y % 65536) (m % 256) (d % 256)

/-- Embeds `month_day_from_julian`; the source's `unreachable!` arms (a day
index outside `0..=364`) are mapped to `(1, 1)`, and are never taken by the
callers below. -/
def monthDayFromJulian (j : Int) : Int × Int :=
  if j < 0 then (1, 1)
  else if j ≤ 30 then (1, j + 1)
  else if j ≤ 58 then (2, j - 30)
  else if j ≤ 89 then (3, j - 58)
  else if j ≤ 119 then (4, j - 89)
  else if j ≤ 150 then (5, j - 119)
  else if j ≤ 180 then (6, j - 150)
  else if j ≤ 211 then (7, j - 180)
  else if j ≤ 242 then (8, j - 211)
  else if j ≤ 272 then (9, j - 242)
  else if j ≤ 303 then (10, j - 272)
  else if j ≤ 333 then (11, j - 303)
  else if j ≤ 364 then (12, j - 333)
  else (1, 1)

/-- Embeds `Ck3Date::from_i32` (the melter's `Ck3Date::from_binary` slot,
whose formula §4.7 of the specification states identically): truncating
division as Rust's `/` and `%` on `i32`. -/
def ck3DateFromI32 (s : Int) : Option Ck3Date :=
  let s1 := s.tdiv 24
  let days := s1.tmod 365
  let s2 := s1.tdiv 365
  let year := s2 - 5000
  if year < 1 then none
  else
    let md := monthDayFromJulian days
    some ⟨year.toNat, md.1.toNat, md.2.toNat⟩

/-- Modelled from the spec: `Ck3Date::from_binary_heuristic` is not among the
provided sources; §4.7 states that a signed 32-bit integer `n` is treated as a
date when `n / (24·365) − 5000 ≥ 1`, decoded by the same hour/day/year
formula. -/
def ck3DateFromBinaryHeuristic (s : Int) : Option Ck3Date :=
  if 1 ≤ s.tdiv (24 * 365) - 5000 then
    let days := (s.tdiv 24).tmod 365
    let year := (s.tdiv 24).tdiv 365 - 5000
    let md := monthDayFromJulian days
    some ⟨year.toNat, md.1.toNat, md.2.toNat⟩
  else none

/-- `PdsDate::game_fmt` for CK3 dates prints `Y.M.D`, the same shape as
`ck3_fmt`. -/
def Ck3Date.gameFmt (d : Ck3Date) : List Char := d.ck3Fmt

theorem isAsciiDigit_ne_dot (c : Char) (h : isAsciiDigit c = true) : ¬ c = '.' := by
  intro hrfl
  subst hrfl
  simp [isAsciiDigit] at h

theorem spansGo_digits (A : List Char) (hA : A.all isAsciiDigit = true) :
    ∀ cs st cur s1 s2,
      spansGo (A ++ cs) st cur s1 s2 = spansGo cs st (cur ++ A) s1 s2 := by
  induction A with
  | nil => intro cs st cur s1 s2; simp
  | cons a A ih =>
      intro cs st cur s1 s2
      rw [List.all_cons, Bool.and_eq_true] at hA
      rw [List.cons_append, spansGo, if_neg (isAsciiDigit_ne_dot a hA.1), if_pos hA.1,
        ih hA.2]
      congr 1
      simp

theorem toU64_natRepr (n : Nat) (h : n < 2 ^ 64) : toU64 (natRepr n) = some n := by
  unfold toU64
  rw [if_neg (natRepr_ne_nil n), natRepr_digit_chars n, if_pos rfl, parseBase_natRepr n,
    if_pos h]

end Ck3Save

namespace Ck3Save

theorem daysPerMonth_le_31 (m d : Nat) (hm1 : 1 ≤ m) (hm2 : m ≤ 12)
    (hd2 : d ≤ daysPerMonth.getD m 0) : d ≤ 31 := by
  interval_cases m <;> simp [daysPerMonth] at hd2 <;> omega

theorem parseFromStr_ck3Fmt (y m d : Nat) (hy1 : 1 ≤ y) (hy2 : y < 65536)
    (hm1 : 1 ≤ m) (hm2 : m ≤ 12) (hd1 : 1 ≤ d) (hd2 : d ≤ daysPerMonth.getD m 0) :
    parseFromStr (Ck3Date.ck3Fmt ⟨y, m, d⟩) = some ⟨y, m, d⟩ := by
  have hdm : d ≤ 31 := daysPerMonth_le_31 m d hm1 hm2 hd2
  have hfmt : Ck3Date.ck3Fmt ⟨y, m, d⟩
      = natRepr y ++ ('.' :: (natRepr m ++ '.' :: natRepr d)) := rfl
  obtain ⟨a, t, hat⟩ := List.exists_cons_of_ne_nil (natRepr_ne_nil y)
  have hhead : (Ck3Date.ck3Fmt ⟨y, m, d⟩).head? = some a := by
    rw [hfmt, hat]; rfl
  have hnine : ¬ a > '9' := natRepr_head_le_nine y a (by rw [hat]; rfl)
  have hspans : spansGo (Ck3Date.ck3Fmt ⟨y, m, d⟩) 0 [] [] []
      = some (natRepr y, natRepr m, natRepr d) := by
    rw [hfmt, spansGo_digits _ (natRepr_digit_chars y), List.nil_append, spansGo,
      if_pos rfl, if_pos rfl, spansGo_digits _ (natRepr_digit_chars m), List.nil_append,
      spansGo, if_pos rfl, if_neg one_ne_zero, if_pos rfl]
    conv_lhs => rw [← List.append_nil (natRepr d)]
    rw [spansGo_digits _ (natRepr_digit_chars d), List.nil_append, spansGo]
  simp only [parseFromStr, hhead, hspans, toU64_natRepr y (by omega),
    toU64_natRepr m (by omega), toU64_natRepr d (by omega)]
  rw [if_neg hnine]
  rw [Nat.mod_eq_of_lt (show y < 65536 by omega), Nat.mod_eq_of_lt (show m < 256 by omega),
    Nat.mod_eq_of_lt (show d < 256 by omega)]
  unfold Ck3Date.new
  rw [if_pos ⟨by omega, by omega, by omega⟩]
  interval_cases m <;> simp [daysPerMonth] at hd2 ⊢ <;> simp [hd2]

end Ck3Save

namespace Ck3Save

/-! ### Exact scaled values

The save's `f64` payloads always decode to integers divided by a power of ten
(see `src/flavor.rs`), so the development models IEEE doubles as exact pairs
`num / den`; this keeps every melter computation kernel-computable. -/

/-- An exact value `num / den` (with `den` positive by construction). -/
structure Fx where
  num : Int
  den : Nat
  deriving DecidableEq, Repr

def fxOfInt (n : Int) : Fx := ⟨n, 1⟩

def fxMul (a b : Fx) : Fx := ⟨a.num * b.num, a.den * b.den⟩

def fxAdd (a b : Fx) : Fx := ⟨a.num * b.den + b.num * a.den, a.den * b.den⟩

/-- Division by a positive integer constant. -/
def fxDivPos (a : Fx) (k : Nat) : Fx := ⟨a.num, a.den * k⟩

/-- Rust's `f64::trunc` on an exact value: truncating division toward zero. -/
def fxTrunc (a : Fx) : Int := a.num.tdiv a.den

/-- Rust's `f64::signum` (which maps `+0.0` to `1.0`; the exact pipeline never
produces a negative zero). -/
def fxSignumRust (a : Fx) : Int := if a.num < 0 then -1 else 1

/-- `f64::from(f32::EPSILON)`, exactly `2⁻²³`. -/
def f32Eps : Fx := ⟨1, 8388608⟩

/-- Does `|a - a.trunc()| > 1e-6` hold?  (`x.fract().abs() > 1e-6` in
`melt.rs`.) -/
def fxFractAbsGtMillionth (a : Fx) : Bool :=
  (a.num - fxTrunc a * a.den).natAbs * 1000000 > a.den

/-- The rational value of an exact scaled value. -/
def Fx.toRat (a : Fx) : ℚ := (a.num : ℚ) / (a.den : ℚ)

/-- Mathematical truncation toward zero on `ℚ`. -/
def ratTruncToward0 (q : ℚ) : Int := if 0 ≤ q then ⌊q⌋ else ⌈q⌉

/-- Rust's `f64::signum` transported to `ℚ` (`+0.0` maps to `1`). -/
def rustSignumQ (q : ℚ) : ℚ := if q < 0 then -1 else 1

theorem fxTrunc_toRat (a : Fx) (hd : 0 < a.den) :
    fxTrunc a = ratTruncToward0 a.toRat := by
  obtain ⟨n, d⟩ := a
  simp only [fxTrunc, Fx.toRat, ratTruncToward0] at *
  rcases le_or_lt 0 n with hn | hn
  · rw [if_pos (by positivity)]
    rw [Rat.floor_intCast_div_natCast, Int.tdiv_eq_ediv hn (by positivity)]
  · have hq : ¬ (0 ≤ (n : ℚ) / (d : ℚ)) := by
      rw [not_le]
      apply div_neg_of_neg_of_pos
      · exact_mod_cast hn
      · exact_mod_cast hd
    rw [if_neg hq]
    have hceil : ⌈(n : ℚ) / (d : ℚ)⌉ = -⌊((-n : Int) : ℚ) / (d : ℚ)⌋ := by
      rw [← Int.ceil_neg]
      congr 1
      push_cast
      ring_nf
    rw [hceil, Rat.floor_intCast_div_natCast]
    have hneg : (-n).tdiv d = -(n.tdiv d) := Int.neg_tdiv n d
    have htd : (-n).tdiv d = (-n) / d :=
      Int.tdiv_eq_ediv (by omega) (by positivity)
    omega

/-! ### Byte decoding -/

/-- The `i64` stored in the first eight little-endian bytes (two's
complement). -/
def i64FromLeBytes (b : List Nat) : Int :=
  let u : Nat := (b.take 8).foldr (fun byte acc => byte % 256 + 256 * acc) 0
  if u < 2 ^ 63 then (u : Int) else (u : Int) - 2 ^ 64

/-- The `u32` stored in the first four little-endian bytes. -/
def u32FromLeBytes (b : List Nat) : Nat :=
  ((b.take 4).foldr (fun byte acc => byte % 256 + 256 * acc) 0 : Nat)

/-- The finite value of an IEEE single-precision float given its bit pattern;
the non-finite patterns (`exponent = 255`) carry no exact value and are mapped
to zero (no claim depends on them). -/
def f32BitsToFx (bits : Nat) : Fx :=
  let sign : Int := if bits / 2 ^ 31 % 2 = 1 then -1 else 1
  let ex : Nat := bits / 2 ^ 23 % 2 ^ 8
  let man : Nat := bits % 2 ^ 23
  if ex = 255 then ⟨0, 1⟩
  else if ex = 0 then ⟨sign * (man : Int), 2 ^ 149⟩
  else if 150 ≤ ex then ⟨sign * ((2 ^ 23 + man : Nat) : Int) * ((2 : Int) ^ (ex - 150)), 1⟩
  else ⟨sign * ((2 ^ 23 + man : Nat) : Int), 2 ^ (150 - ex)⟩

/-! ### Flavors (src/flavor.rs) -/

/-- The two concrete binary flavors: `Ck3Flavor15` (1.5+) and `Ck3Flavor10`
(pre 1.5). -/
inductive Ck3Flavor where
  | flavor15
  | flavor10
  deriving DecidableEq, Repr

/-- Embeds `Ck3BinaryFlavor::float_reencoding`. -/
def Ck3Flavor.floatReencoding : Ck3Flavor → Bool
  | .flavor15 => false
  | .flavor10 => true

/-- Embeds `Ck3BinaryFlavor::unquote_token` for both flavors (`Ck3Flavor15`
additionally lists `localization_key`). -/
def Ck3Flavor.unquoteToken : Ck3Flavor → String → Bool
  | .flavor15, tok =>
      match tok with
      | "save_game_version" | "portraits_version" | "meta_date" | "color1" | "color2"
      | "color3" | "color4" | "color5" | "traits_lookup" | "features" | "modifiers"
      | "traditions" | "name_list" | "localization_key" => true
      | _ => false
  | .flavor10, tok =>
      match tok with
      | "save_game_version" | "portraits_version" | "meta_date" | "color1" | "color2"
      | "color3" | "color4" | "color5" | "traits_lookup" | "features" | "modifiers"
      | "traditions" | "name_list" => true
      | _ => false

/-- Embeds `BinaryFlavor::visit_f64` for both flavors: `Ck3Flavor15` decodes
`trunc(x + ε·signum(x)) / 100000` with `x = i64_le(data)`; `Ck3Flavor10`
decodes `i64_le(data) / 1000`. -/
def Ck3Flavor.visitF64 : Ck3Flavor → List Nat → Fx
  | .flavor15, data =>
      let x := fxOfInt (i64FromLeBytes data)
      fxDivPos (fxOfInt (fxTrunc (fxAdd x (fxMul f32Eps (fxOfInt (fxSignumRust x)))))) 100000
  | .flavor10, data => fxDivPos (fxOfInt (i64FromLeBytes data)) 1000

/-- Embeds `BinaryFlavor::visit_f32` (identical for both flavors): raw IEEE
little-endian bits. -/
def visitF32 (data : List Nat) : Fx := f32BitsToFx (u32FromLeBytes data)

/-- Embeds `reencode_float` (src/flavor.rs): reverse the flavor decoding
(multiply by 1000), apply the Q49.15 step with five digits of precision and
the `f32::EPSILON` nudge, truncate, divide by `10^5`. -/
def reencodeFloat (f : Fx) : Fx :=
  let f1 := fxMul f (fxOfInt 1000)
  let num := fxTrunc (fxAdd (fxMul (fxDivPos f1 32768) (fxOfInt 100000))
    (fxMul f32Eps (fxOfInt (fxSignumRust f1))))
  fxDivPos (fxOfInt num) 100000

end Ck3Save

namespace Ck3Save

/-! ### Rendering of numeric scalars -/

/-- Fractional decimal digits of `rem / den`, stopping when the remainder
vanishes (our exact values terminate within a few digits; the fuel bound is
never reached by them). -/
def fracDigits : Nat → Nat → Nat → List Char
  | 0, _, _ => []
  | _ + 1, 0, _ => []
  | f + 1, rem + 1, den =>
      digitChar ((rem + 1) * 10 / den) :: fracDigits f ((rem + 1) * 10 % den) den

/-- Modelled from the spec: Rust's `{}` display of an `f64` holding one of the
melter's exact decimal values prints the integer part and the terminating
fractional digits (integers print with no decimal point). -/
def renderFxPlain (a : Fx) : List Char :=
  let n := a.num.natAbs
  let ip := n / a.den
  let rem := n % a.den
  let sign := if a.num < 0 then ['-'] else ([] : List Char)
  if rem = 0 then sign ++ natRepr ip
  else sign ++ natRepr ip ++ '.' :: fracDigits 64 rem a.den

/-- Left-pad a digit string with zeros to a fixed width. -/
def padLeftZeros (k : Nat) (l : List Char) : List Char :=
  List.replicate (k - l.length) '0' ++ l

/-- Modelled from the spec: Rust's fixed-precision float formatting
(`{:.5}`, `{:.6}`), rounding to nearest with ties to even.  The melter only
feeds it values that are exact at the requested precision. -/
def renderFxFixed (prec : Nat) (a : Fx) : List Char :=
  let n := a.num.natAbs
  let scaled := n * 10 ^ prec
  let q := scaled / a.den
  let r := scaled % a.den
  let rounded :=
    if 2 * r > a.den then q + 1
    else if 2 * r < a.den then q
    else if q % 2 = 0 then q else q + 1
  let ip := rounded / 10 ^ prec
  let fp := rounded % 10 ^ prec
  let sign := if a.num < 0 then ['-'] else ([] : List Char)
  sign ++ natRepr ip ++ '.' :: padLeftZeros prec (natRepr fp)

/-- Lowercase hexadecimal rendering with no padding (Rust's `{:x}`). -/
def natHexRepr (n : Nat) : List Char :=
  if n = 0 then ['0'] else (natDigitsLE 16 n).reverse.map hexDigitChar

/-! ### Text writer

Modelled from the spec: the jomini `TextWriter` is an external collaborator
(§2 component F); per §2/§4.7/§9 it tracks container depth, an
"expecting key" state, an "unknown start" state for freshly opened containers
(where a scalar may yet turn out to be a key), mixed object/array mode entered
when an `Equal` arrives inside an array, and tab indentation
(`indent_char = '\t'`, `indent_factor = 1`). -/

/-- The write position inside the current container. -/
inductive WMode where
  /-- Inside an object, the next scalar is a key. -/
  | objKey
  /-- A key has been written; an `=` is expected. -/
  | objEq
  /-- `=` has been written; the next write is the value. -/
  | objVal
  /-- A container was just opened: the next scalar could be a key or a bare
  array value (`at_unknown_start`). -/
  | cstart
  /-- One bare scalar has been written; the container is an object if `=`
  follows, an array otherwise. -/
  | firstScalar
  /-- At least two bare values: an array (an `=` switches to mixed mode). -/
  | arrayMode
  /-- Mixed-mode `key=` seen inside an array; the next write is the value. -/
  | mixedVal
  deriving DecidableEq, Repr

/-- The text writer: the accumulated output, one mode per open container, and the
mode of the document root (which is an implicit object). -/
structure Wtr where
  out : List Char
  frames : List WMode
  root : WMode
  deriving DecidableEq, Repr

def Wtr.init : Wtr := ⟨[], [], .objKey⟩

def Wtr.curMode (w : Wtr) : WMode :=
  match w.frames with
  | [] => w.root
  | m :: _ => m

def Wtr.setCur (w : Wtr) (m : WMode) : Wtr :=
  match w.frames with
  | [] => { w with root := m }
  | _ :: t => { w with frames := m :: t }

def Wtr.depth (w : Wtr) : Nat := w.frames.length

def Wtr.expectingKey (w : Wtr) : Bool := w.curMode = .objKey

def Wtr.atUnknownStart (w : Wtr) : Bool := w.curMode = .cstart

def tabs (n : Nat) : List Char := List.replicate n '\t'

def Wtr.emit (w : Wtr) (cs : List Char) : Wtr := { w with out := w.out ++ cs }

/-- Write a rendered scalar; placement and separators depend on the current
mode. -/
def Wtr.writeScalarRaw (w : Wtr) (payload : List Char) : Wtr :=
  match w.curMode with
  | .objKey =>
      ((w.emit ((if w.out.isEmpty then [] else ['\n']) ++ tabs w.depth ++ payload)).setCur
        .objEq)
  | .objEq => w.emit payload
  | .objVal => (w.emit payload).setCur .objKey
  | .cstart => (w.emit payload).setCur .firstScalar
  | .firstScalar => (w.emit (' ' :: payload)).setCur .arrayMode
  | .arrayMode => w.emit (' ' :: payload)
  | .mixedVal => (w.emit payload).setCur .arrayMode

/-- Write the `=` operator. -/
def Wtr.writeOperatorEq (w : Wtr) : Wtr :=
  match w.curMode with
  | .objEq => (w.emit ['=']).setCur .objVal
  | .firstScalar => (w.emit ['=']).setCur .objVal
  | .arrayMode => (w.emit ['=']).setCur .mixedVal
  | _ => w.emit ['=']

def Wtr.pushFrame (w : Wtr) (m : WMode) : Wtr := { w with frames := m :: w.frames }

/-- Open a container, pushing the given starting mode. -/
def Wtr.writeStartWith (w : Wtr) (m : WMode) : Wtr :=
  match w.curMode with
  | .objKey =>
      ((w.emit ((if w.out.isEmpty then [] else ['\n']) ++ tabs w.depth ++ ['{'])).pushFrame m)
  | .firstScalar => (w.emit [' ', '{']).pushFrame m
  | .arrayMode => (w.emit [' ', '{']).pushFrame m
  | _ => (w.emit ['{']).pushFrame m

/-- `write_start`: a container whose object/array nature is not yet known. -/
def Wtr.writeStart (w : Wtr) : Wtr := w.writeStartWith .cstart

/-- `write_object_start`: a container known to be an object. -/
def Wtr.writeObjectStart (w : Wtr) : Wtr := w.writeStartWith .objKey

/-- Close the current container and account for the completed value in the
parent. -/
def Wtr.writeEnd (w : Wtr) : Wtr :=
  let w1 := w.emit ['}']
  match w1.frames with
  | [] => w1
  | _ :: t =>
      let w2 := { w1 with frames := t }
      match w2.curMode with
      | .objVal => w2.setCur .objKey
      | .cstart => w2.setCur .firstScalar
      | .firstScalar => w2.setCur .arrayMode
      | .mixedVal => w2.setCur .arrayMode
      | _ => w2

def Wtr.writeUnquoted (w : Wtr) (p : List Char) : Wtr := w.writeScalarRaw p

def Wtr.writeQuoted (w : Wtr) (p : List Char) : Wtr :=
  w.writeScalarRaw ('"' :: (p ++ ['"']))

def Wtr.writeI32 (w : Wtr) (x : Int) : Wtr := w.writeScalarRaw (intRepr x)

def Wtr.writeI64 (w : Wtr) (x : Int) : Wtr := w.writeScalarRaw (intRepr x)

def Wtr.writeU32 (w : Wtr) (x : Nat) : Wtr := w.writeScalarRaw (natRepr x)

def Wtr.writeU64 (w : Wtr) (x : Nat) : Wtr := w.writeScalarRaw (natRepr x)

def Wtr.writeBool (w : Wtr) (b : Bool) : Wtr :=
  w.writeScalarRaw (if b then ['y', 'e', 's'] else ['n', 'o'])

def Wtr.writeDate (w : Wtr) (p : List Char) : Wtr := w.writeScalarRaw p

/-- `write_rgb`: `rgb { R G B }` written as one value. -/
def Wtr.writeRgb (w : Wtr) (r g b : Nat) : Wtr :=
  w.writeScalarRaw ('r' :: 'g' :: 'b' :: ' ' :: '{' :: ' ' ::
    (natRepr r ++ ' ' :: natRepr g ++ ' ' :: natRepr b ++ [' ', '}']))

end Ck3Save

namespace Ck3Save

/-! ### Tokens, options and errors (src/melt.rs) -/

/-- Modelled from the spec: the jomini binary `Token` union (§3) as the
melter consumes it; payload bytes are carried as strings/byte lists. -/
inductive Tok where
  | tokOpen
  | tokClose
  | tokEqual
  | tokI32 (x : Int)
  | tokQuoted (s : String)
  | tokUnquoted (s : String)
  | tokF32 (b : List Nat)
  | tokF64 (b : List Nat)
  | tokId (x : Nat)
  | tokU32 (x : Nat)
  | tokU64 (x : Nat)
  | tokBool (b : Bool)
  | tokRgb (r g b : Nat)
  | tokI64 (x : Int)
  deriving DecidableEq, Repr

/-- Embeds `jomini::binary::FailedResolveStrategy`. -/
inductive FailedResolveStrategy where
  | error
  | ignore
  | stringify
  deriving DecidableEq, Repr

/-- Embeds `MeltOptions`. -/
structure MeltOptions where
  verbatim : Bool
  onFailedResolve : FailedResolveStrategy
  deriving DecidableEq, Repr

/-- Embeds `MeltOptions::new` (the default): not verbatim, `Ignore`. -/
def meltOptionsNew : MeltOptions := ⟨false, .ignore⟩

/-- The error cases of `melt` relevant to the token-level model. -/
inductive MeltErr where
  | invalidHeader
  | unknownToken (id : Nat)
  | invalidDate (x : Int)
  | eof
  deriving DecidableEq, Repr

/-- Embeds `QuoteKind` (src/melt.rs). -/
inductive QuoteKind where
  | inactive
  | unquoteAll
  | unquoteScalar
  | quoteScalar
  | forceQuote
  deriving DecidableEq, Repr

/-- Embeds `Quoter` (src/melt.rs). -/
structure Quoter where
  queued : Option QuoteKind
  depth : List QuoteKind
  deriving DecidableEq, Repr

/-- `Quoter::push`: take the queued kind; `ForceQuote`/`UnquoteAll` are
inherited by the new container, anything else becomes `Inactive`. -/
def Quoter.push (q : Quoter) : Quoter :=
  let next :=
    match q.queued with
    | some .forceQuote => QuoteKind.forceQuote
    | some .unquoteAll => QuoteKind.unquoteAll
    | _ => QuoteKind.inactive
  ⟨none, next :: q.depth⟩

/-- `Quoter::pop` (does not touch the queued slot). -/
def Quoter.pop (q : Quoter) : Quoter := ⟨q.queued, q.depth.tail⟩

/-- `Quoter::take_scalar`: the queued kind if any (consumed), else the top of
the depth stack, else `Inactive`. -/
def Quoter.takeScalar (q : Quoter) : QuoteKind × Quoter :=
  match q.queued with
  | some x => (x, ⟨none, q.depth⟩)
  | none => (q.depth.headD .inactive, ⟨none, q.depth⟩)

def Quoter.queue (q : Quoter) (m : QuoteKind) : Quoter := ⟨some m, q.depth⟩

def Quoter.clearQueued (q : Quoter) : Quoter := ⟨none, q.depth⟩

/-- Embeds `Block` (src/melt.rs). -/
inductive Block where
  | alive
  | aiStrategies
  | inactive
  deriving DecidableEq, Repr

/-- Embeds `Blocks` (src/melt.rs), including the source's field spelling. -/
structure Blocks where
  queued : Option Block
  data : List Block
  inAiStrageties : Bool
  inAliveData : Bool
  deriving DecidableEq, Repr

/-- `Blocks::push`: push the queued block (or `Inactive`).  Note that the
source never sets `in_alive_data`/`in_ai_strageties` to `true` here. -/
def Blocks.push (b : Blocks) : Blocks :=
  ⟨none, b.queued.getD .inactive :: b.data, b.inAiStrageties, b.inAliveData⟩

/-- `Blocks::pop`: pop and reset the matching flag to `false`. -/
def Blocks.pop (b : Blocks) : Blocks :=
  match b.data with
  | [] => b
  | x :: t =>
      match x with
      | .alive => ⟨b.queued, t, b.inAiStrageties, false⟩
      | .aiStrategies => ⟨b.queued, t, false, b.inAliveData⟩
      | .inactive => ⟨b.queued, t, b.inAiStrageties, b.inAliveData⟩

def Blocks.queue (b : Blocks) (m : Block) : Blocks := { b with queued := some m }

def Blocks.clearQueued (b : Blocks) : Blocks := { b with queued := none }

/-- `Blocks::at_ai_strategies`: is the innermost open container the value of
`ai_strategies`? -/
def Blocks.atAiStrategies (b : Blocks) : Bool :=
  match b.data with
  | .aiStrategies :: _ => true
  | _ => false

/-- The local mutable state of one `inner_melt` invocation. -/
structure MState where
  reencodeFloatToken : Bool
  knownNumber : Bool
  knownDate : Bool
  quotedBufferEnabled : Bool
  quotedBuffer : List Char
  quoter : Quoter
  block : Blocks
  deriving DecidableEq, Repr

def MState.init : MState := ⟨false, false, false, false, [], ⟨none, []⟩, ⟨none, [], false, false⟩⟩

/-- Embeds `TokenReader::skip_container`: consume tokens through the `Close`
matching the current depth; `none` on end of input. -/
def skipCont : Nat → List Tok → Option (List Tok)
  | _, [] => none
  | d, t :: ts =>
      match t with
      | .tokOpen => skipCont (d + 1) ts
      | .tokClose => if d = 0 then some ts else skipCont (d - 1) ts
      | _ => skipCont d ts

/-- The key-skipping read sequence of `inner_melt` (the ironman and
`Ignore`-at-key branches): read one token, consume a following `Equal` if
present, and skip a balanced container if the value opens one. -/
def skipValue : List Tok → Option (List Tok)
  | [] => none
  | t :: ts =>
      if t = .tokEqual then
        match ts with
        | [] => none
        | v :: vs => if v = .tokOpen then skipCont 0 vs else some vs
      else if t = .tokOpen then skipCont 0 ts
      else some ts

/-- `__unknown_0x<hex>` (the `Stringify`/non-key `Ignore` rendering). -/
def unknownName (x : Nat) : List Char :=
  '_' :: '_' :: 'u' :: 'n' :: 'k' :: 'n' :: 'o' :: 'w' :: 'n' :: '_' :: '0' :: 'x' ::
    natHexRepr x

end Ck3Save

namespace Ck3Save

/-! ### The melter (src/melt.rs) -/

/-- Flavor selection on the melting path (`melt`, src/melt.rs lines 312-316):
`Ck3Flavor15` when the `save_game_version` value exceeds 5, else
`Ck3Flavor10`. -/
def meltFlavorSelect (version : Int) : Ck3Flavor :=
  if version > 5 then .flavor15 else .flavor10

/-- Embeds `flavor_from_tape` (src/flavor.rs): the deserialization path
selects `Ck3Flavor15` only when the third tape token is token `1423`
(`save_game_version`) and the fourth is `I32(7)` or `I32(6)`. -/
def flavorFromTape (tokens : List Tok) : Ck3Flavor :=
  match tokens with
  | _ :: _ :: .tokId 1423 :: .tokI32 7 :: _ => .flavor15
  | _ :: _ :: .tokId 1423 :: .tokI32 6 :: _ => .flavor15
  | _ => .flavor10

/-- The outcome of one iteration of the `inner_melt` loop. -/
inductive StepRes where
  | cont (w : Wtr) (st : MState) (unk : Finset Nat) (ts : List Tok)
  | done (r : Wtr × List Tok × Finset Nat)
  | fail (e : MeltErr)
  deriving DecidableEq

/-- The state update of a resolved, non-suppressed identifier (src/melt.rs
lines 465-499): clear the queued block/quote kinds, queue `Alive`,
`AiStrategies` or an unquote kind as the identifier dictates, and latch the
`known_number`/`known_date`/`reencode_float_token` flags.  The `gold` arm
reads `Blocks.in_alive_data`, which no operation ever sets to `true`. -/
def resolvedIdState (fl : Ck3Flavor) (name : String) (st : MState) : MState :=
  let block1 := st.block.clearQueued
  let quoter1 := st.quoter.clearQueued
  let block2 := if name = "alive_data" then block1.queue .alive else block1
  let block3 := if name = "ai_strategies" then block2.queue .aiStrategies else block2
  let quoter2 :=
    if name = "settings" ∨ name = "setting" ∨ name = "perks"
        ∨ name = "ethnicities" ∨ name = "languages" then
      quoter1.queue .unquoteAll
    else if name = "perk" ∧ block3.inAliveData = true then quoter1.queue .unquoteAll
    else if fl.unquoteToken name then quoter1.queue .unquoteScalar
    else quoter1
  { st with
      block := block3
      quoter := quoter2
      knownNumber := name == "seed" || name == "random_count"
      knownDate := name == "birth"
      reencodeFloatToken := (name == "vassal_power_value" || name == "budget_war_chest"
          || name == "budget_short_term" || name == "budget_long_term"
          || name == "budget_reserved" || name == "damage_last_tick"
          || (block3.inAliveData && name == "gold"))
        && fl.floatReencoding }

/-- The per-token dispatch of the `inner_melt` loop body (src/melt.rs),
after the quoted-buffer flush: exactly the `match token` of the `while let`
body.  `done` is the header-mode early return at depth zero, `fail` the error
paths, `cont` carries the updated writer/state/unknown-set and the tokens
still to be consumed (the skip branches consume extra tokens from the
reader). -/
def innerMeltTok (fl : Ck3Flavor) (res : Nat → Option String) (opts : MeltOptions)
    (hdr : Bool) (tok : Tok) (rest : List Tok) (w : Wtr) (st : MState)
    (unk : Finset Nat) : StepRes :=
  match tok with
  | .tokOpen =>
      .cont w.writeStart { st with block := st.block.push, quoter := st.quoter.push } unk rest
  | .tokClose =>
      if hdr ∧ (w.writeEnd).depth = 0 then .done (w.writeEnd, rest, unk)
      else .cont w.writeEnd { st with block := st.block.pop, quoter := st.quoter.pop } unk rest
  | .tokI32 x =>
      if st.knownNumber ∨ st.block.atAiStrategies then
        .cont (w.writeI32 x) { st with knownNumber := false } unk rest
      else if st.knownDate then
        match ck3DateFromI32 x with
        | some dt => .cont (w.writeDate dt.gameFmt) { st with knownDate := false } unk rest
        | none =>
            if opts.onFailedResolve ≠ .error then
              .cont (w.writeI32 x) { st with knownDate := false } unk rest
            else .fail (.invalidDate x)
      else
        match ck3DateFromBinaryHeuristic x with
        | some dt => .cont (w.writeDate dt.gameFmt) st unk rest
        | none => .cont (w.writeI32 x) st unk rest
  | .tokQuoted s =>
      match (st.quoter.takeScalar).1 with
      | .inactive =>
          if w.atUnknownStart then
            .cont w
              { st with
                  quoter := (st.quoter.takeScalar).2
                  quotedBufferEnabled := true
                  quotedBuffer := st.quotedBuffer ++ s.toList } unk rest
          else if w.expectingKey then
            .cont (w.writeUnquoted s.toList) { st with quoter := (st.quoter.takeScalar).2 }
              unk rest
          else
            .cont (w.writeQuoted s.toList) { st with quoter := (st.quoter.takeScalar).2 }
              unk rest
      | .forceQuote =>
          .cont (w.writeQuoted s.toList) { st with quoter := (st.quoter.takeScalar).2 } unk rest
      | .unquoteAll =>
          .cont (w.writeUnquoted s.toList) { st with quoter := (st.quoter.takeScalar).2 } unk rest
      | .unquoteScalar =>
          .cont (w.writeUnquoted s.toList) { st with quoter := (st.quoter.takeScalar).2 } unk rest
      | .quoteScalar =>
          .cont (w.writeQuoted s.toList) { st with quoter := (st.quoter.takeScalar).2 } unk rest
  | .tokUnquoted s => .cont (w.writeUnquoted s.toList) st unk rest
  | .tokF32 b => .cont (w.writeScalarRaw (renderFxFixed 6 (visitF32 b))) st unk rest
  | .tokF64 b =>
      if st.reencodeFloatToken then
        .cont
          (w.writeScalarRaw
            (if fxFractAbsGtMillionth (reencodeFloat (fl.visitF64 b)) then
              renderFxFixed 5 (reencodeFloat (fl.visitF64 b))
            else renderFxPlain (reencodeFloat (fl.visitF64 b))))
          { st with reencodeFloatToken := false } unk rest
      else .cont (w.writeScalarRaw (renderFxPlain (fl.visitF64 b))) st unk rest
  | .tokId x =>
      match res x with
      | some name =>
          if opts.verbatim = false ∧ (name = "ironman" ∨ name = "ironman_manager")
              ∧ w.expectingKey = true then
            match skipValue rest with
            | some rest1 => .cont w st unk rest1
            | none => .fail .eof
          else
            .cont (w.writeUnquoted name.toList)
              (resolvedIdState fl name st) unk rest
      | none =>
          match opts.onFailedResolve with
          | .error => .fail (.unknownToken x)
          | .ignore =>
              if w.expectingKey then
                match skipValue rest with
                | some rest1 => .cont w st unk rest1
                | none => .fail .eof
              else .cont (w.writeScalarRaw (unknownName x)) st (insert x unk) rest
          | .stringify => .cont (w.writeScalarRaw (unknownName x)) st (insert x unk) rest
  | .tokEqual => .cont w.writeOperatorEq st unk rest
  | .tokU32 x => .cont (w.writeU32 x) st unk rest
  | .tokU64 x => .cont (w.writeU64 x) st unk rest
  | .tokBool b => .cont (w.writeBool b) st unk rest
  | .tokRgb r g b => .cont (w.writeRgb r g b) st unk rest
  | .tokI64 x => .cont (w.writeI64 x) st unk rest

/-- Embeds one iteration of the `inner_melt` loop: flush the pending quoted
buffer (unquoted when the incoming token is `Equal`, else quoted), then
dispatch on the token. -/
def innerMeltStep (fl : Ck3Flavor) (res : Nat → Option String) (opts : MeltOptions)
    (hdr : Bool) (tok : Tok) (rest : List Tok) (w0 : Wtr) (st0 : MState)
    (unk : Finset Nat) : StepRes :=
  if st0.quotedBufferEnabled then
    innerMeltTok fl res opts hdr tok rest
      (if tok = .tokEqual then w0.writeUnquoted st0.quotedBuffer
       else w0.writeQuoted st0.quotedBuffer)
      { st0 with quotedBufferEnabled := false, quotedBuffer := [] } unk
  else innerMeltTok fl res opts hdr tok rest w0 st0 unk

/-- Embeds `inner_melt` (src/melt.rs) over a token list: iterate
`innerMeltStep` until the input is exhausted, driven by a fuel parameter
standing for the reader loop (each iteration consumes at least one token, so
`tokens.length + 1` fuel always suffices; exhausted fuel reports `eof`).  In
header mode the loop returns the unconsumed tokens when the writer depth
returns to zero. -/
def innerMelt (fl : Ck3Flavor) (res : Nat → Option String) (opts : MeltOptions)
    (hdr : Bool) : Nat → List Tok → Wtr → MState → Finset Nat →
    Except MeltErr (Wtr × List Tok × Finset Nat)
  | _, [], w, _, unk => .ok (w, [], unk)
  | 0, _ :: _, _, _, _ => .error .eof
  | f + 1, tok :: rest, w, st, unk =>
      match innerMeltStep fl res opts hdr tok rest w st unk with
      | .cont w1 st1 unk1 ts1 => innerMelt fl res opts hdr f ts1 w1 st1 unk1
      | .done r => .ok r
      | .fail e => .error e

theorem innerMelt_nil (fl : Ck3Flavor) (res : Nat → Option String) (opts : MeltOptions)
    (hdr : Bool) (f : Nat) (w : Wtr) (st : MState) (unk : Finset Nat) :
    innerMelt fl res opts hdr f [] w st unk = .ok (w, [], unk) := by
  cases f <;> rfl

theorem innerMelt_succ_cons (fl : Ck3Flavor) (res : Nat → Option String)
    (opts : MeltOptions) (hdr : Bool) (f : Nat) (tok : Tok) (rest : List Tok) (w : Wtr)
    (st : MState) (unk : Finset Nat) :
    innerMelt fl res opts hdr (f + 1) (tok :: rest) w st unk =
      match innerMeltStep fl res opts hdr tok rest w st unk with
      | .cont w1 st1 unk1 ts1 => innerMelt fl res opts hdr f ts1 w1 st1 unk1
      | .done r => .ok r
      | .fail e => .error e := rfl

/-- The text writer after the six preamble writes of `melt`
(`save_game_version` twice, two operators, an object start, the version). -/
def preambleWriter (na nb : String) (v : Int) : Wtr :=
  (((((Wtr.init.writeUnquoted na.toList).writeOperatorEq).writeObjectStart
    ).writeUnquoted nb.toList).writeOperatorEq).writeI32 v

/-- Embeds `melt` (src/melt.rs) over a token list: the six-token
`save_game_version` preamble (whose failures are `InvalidHeader`), flavor
selection from the version value, the header-mode first pass into a buffer, a
single appended newline, the header patched to kind `Text` with the buffer
length, then the second pass over the remaining tokens into the real
output. -/
def meltTokens (res : Nat → Option String) (opts : MeltOptions) (hdr : SaveHeader)
    (ts : List Tok) : Except MeltErr (List Char × Finset Nat) :=
  match ts with
  | .tokId a :: .tokEqual :: .tokOpen :: .tokId b :: .tokEqual :: .tokI32 v :: rest =>
      match res a, res b with
      | some na, some nb =>
          match innerMelt (meltFlavorSelect v) res opts true (rest.length + 1) rest
              (preambleWriter na nb v) MState.init ∅ with
          | .error e => .error e
          | .ok (w1, remaining, unk1) =>
              match innerMelt (meltFlavorSelect v) res opts false (remaining.length + 1)
                  remaining Wtr.init MState.init unk1 with
              | .error e => .error e
              | .ok (w2, _, unk2) =>
                  .ok (saveHeaderWrite
                      { hdr with
                          kind := .text
                          metadataLen := (w1.out ++ ['\n']).length }
                    ++ (w1.out ++ ['\n']) ++ w2.out, unk2)
      | _, _ => .error .invalidHeader
  | _ => .error .invalidHeader

/-- Embeds the `MeltInput::Text` arm of `Ck3Melter::melt` (src/melt.rs lines
232-237): write the stored header, write the body unchanged, and return a
fresh `MeltedDocument` (empty unknown-token set) — the resolver and options
are never consulted. -/
def meltText (hdr : SaveHeader) (body : List Char) : List Char × Finset Nat :=
  (saveHeaderWrite hdr ++ body, ∅)

/-- Embeds the `FileKind::Text` arm of `Ck3File::meta` (src/file.rs lines
104-123): when twice the header's `metadata_len` exceeds the body length the
whole body is returned, otherwise the first `min(metadata_len, len)` bytes. -/
def ck3MetaText (metadataLen : Nat) (body : List Char) : List Char :=
  if metadataLen * 2 > body.length then body
  else body.take (min metadataLen body.length)

end Ck3Save

namespace Ck3Save

theorem innerMelt_zero_cons (fl : Ck3Flavor) (res : Nat → Option String)
    (opts : MeltOptions) (hdr : Bool) (t : Tok) (rest : List Tok) (w : Wtr) (st : MState)
    (unk : Finset Nat) :
    innerMelt fl res opts hdr 0 (t :: rest) w st unk = .error .eof := rfl

set_option maxHeartbeats 2000000 in
theorem innerMeltTok_cont_unk (fl : Ck3Flavor) (res : Nat → Option String)
    (opts : MeltOptions) (hdr : Bool) (tok : Tok) (rest : List Tok) (w : Wtr) (st : MState)
    (unk : Finset Nat) (w1 : Wtr) (st1 : MState) (unk1 : Finset Nat) (ts1 : List Tok)
    (h : innerMeltTok fl res opts hdr tok rest w st unk = .cont w1 st1 unk1 ts1) :
    unk ⊆ unk1 := by
  unfold innerMeltTok at h
  repeat' split at h
  all_goals cases h
  all_goals first
    | exact fun a ha => ha
    | exact Finset.subset_insert _ _

set_option maxHeartbeats 2000000 in
theorem innerMeltTok_done_unk (fl : Ck3Flavor) (res : Nat → Option String)
    (opts : MeltOptions) (hdr : Bool) (tok : Tok) (rest : List Tok) (w : Wtr) (st : MState)
    (unk : Finset Nat) (r1 : Wtr × List Tok × Finset Nat)
    (h : innerMeltTok fl res opts hdr tok rest w st unk = .done r1) :
    r1.2.2 = unk := by
  unfold innerMeltTok at h
  repeat' split at h
  all_goals cases h
  all_goals rfl

set_option maxHeartbeats 2000000 in
theorem innerMeltTok_ignore_fail (fl : Ck3Flavor) (res : Nat → Option String)
    (opts : MeltOptions) (hdr : Bool) (tok : Tok) (rest : List Tok) (w : Wtr) (st : MState)
    (unk : Finset Nat) (e : MeltErr)
    (hig : opts.onFailedResolve = .ignore)
    (h : innerMeltTok fl res opts hdr tok rest w st unk = .fail e) :
    e = .eof := by
  unfold innerMeltTok at h
  repeat' split at h
  all_goals cases h
  all_goals simp_all

theorem innerMeltStep_cont_unk (fl : Ck3Flavor) (res : Nat → Option String)
    (opts : MeltOptions) (hdr : Bool) (tok : Tok) (rest : List Tok) (w : Wtr) (st : MState)
    (unk : Finset Nat) (w1 : Wtr) (st1 : MState) (unk1 : Finset Nat) (ts1 : List Tok)
    (h : innerMeltStep fl res opts hdr tok rest w st unk = .cont w1 st1 unk1 ts1) :
    unk ⊆ unk1 := by
  unfold innerMeltStep at h
  split at h
  · split at h <;> exact innerMeltTok_cont_unk _ _ _ _ _ _ _ _ _ _ _ _ _ h
  · exact innerMeltTok_cont_unk _ _ _ _ _ _ _ _ _ _ _ _ _ h

theorem innerMeltStep_done_unk (fl : Ck3Flavor) (res : Nat → Option String)
    (opts : MeltOptions) (hdr : Bool) (tok : Tok) (rest : List Tok) (w : Wtr) (st : MState)
    (unk : Finset Nat) (r1 : Wtr × List Tok × Finset Nat)
    (h : innerMeltStep fl res opts hdr tok rest w st unk = .done r1) :
    r1.2.2 = unk := by
  unfold innerMeltStep at h
  split at h
  · split at h <;> exact innerMeltTok_done_unk _ _ _ _ _ _ _ _ _ _ h
  · exact innerMeltTok_done_unk _ _ _ _ _ _ _ _ _ _ h

theorem innerMeltStep_ignore_fail (fl : Ck3Flavor) (res : Nat → Option String)
    (opts : MeltOptions) (hdr : Bool) (tok : Tok) (rest : List Tok) (w : Wtr) (st : MState)
    (unk : Finset Nat) (e : MeltErr)
    (hig : opts.onFailedResolve = .ignore)
    (h : innerMeltStep fl res opts hdr tok rest w st unk = .fail e) :
    e = .eof := by
  unfold innerMeltStep at h
  split at h
  · split at h <;> exact innerMeltTok_ignore_fail _ _ _ _ _ _ _ _ _ _ hig h
  · exact innerMeltTok_ignore_fail _ _ _ _ _ _ _ _ _ _ hig h

theorem innerMelt_unknown_mono (fl : Ck3Flavor) (res : Nat → Option String)
    (opts : MeltOptions) (hdr : Bool) :
    ∀ f ts w st unk r, innerMelt fl res opts hdr f ts w st unk = .ok r → unk ⊆ r.2.2 := by
  intro f
  induction f with
  | zero =>
      intro ts w st unk r h
      cases ts with
      | nil =>
          rw [innerMelt_nil] at h
          injection h with h2
          subst h2
          exact fun a ha => ha
      | cons t rest =>
          rw [innerMelt_zero_cons] at h
          cases h
  | succ f ih =>
      intro ts w st unk r h
      cases ts with
      | nil =>
          rw [innerMelt_nil] at h
          injection h with h2
          subst h2
          exact fun a ha => ha
      | cons t rest =>
          rw [innerMelt_succ_cons] at h
          cases hstep : innerMeltStep fl res opts hdr t rest w st unk with
          | cont w1 st1 unk1 ts1 =>
              rw [hstep] at h
              exact Finset.Subset.trans
                (innerMeltStep_cont_unk fl res opts hdr t rest w st unk w1 st1 unk1 ts1 hstep)
                (ih _ _ _ _ _ h)
          | done r1 =>
              rw [hstep] at h
              injection h with h2
              subst h2
              rw [innerMeltStep_done_unk fl res opts hdr t rest w st unk r1 hstep]
          | fail e =>
              rw [hstep] at h
              cases h

theorem innerMelt_ignore_err (fl : Ck3Flavor) (res : Nat → Option String)
    (opts : MeltOptions) (hdr : Bool) (hig : opts.onFailedResolve = .ignore) :
    ∀ f ts w st unk e, innerMelt fl res opts hdr f ts w st unk = .error e → e = .eof := by
  intro f
  induction f with
  | zero =>
      intro ts w st unk e h
      cases ts with
      | nil => rw [innerMelt_nil] at h; cases h
      | cons t rest =>
          rw [innerMelt_zero_cons] at h
          injection h with h1
          exact h1.symm
  | succ f ih =>
      intro ts w st unk e h
      cases ts with
      | nil => rw [innerMelt_nil] at h; cases h
      | cons t rest =>
          rw [innerMelt_succ_cons] at h
          cases hstep : innerMeltStep fl res opts hdr t rest w st unk with
          | cont w1 st1 unk1 ts1 =>
              rw [hstep] at h
              exact ih _ _ _ _ _ h
          | done r1 => rw [hstep] at h; cases h
          | fail e1 =>
              rw [hstep] at h
              injection h with h1
              subst h1
              exact innerMeltStep_ignore_fail fl res opts hdr t rest w st unk _ hig hstep

end Ck3Save

namespace Ck3Save

/-- Equality of `Except` results is decidable (used to evaluate the model at
concrete inputs). -/
instance exceptDecEq {e a : Type} [DecidableEq e] [DecidableEq a] :
    DecidableEq (Except e a) := fun x y =>
  match x, y with
  | .ok u, .ok v =>
      if h : u = v then isTrue (by rw [h]) else isFalse (by intro hh; cases hh; exact h rfl)
  | .error u, .error v =>
      if h : u = v then isTrue (by rw [h]) else isFalse (by intro hh; cases hh; exact h rfl)
  | .ok _, .error _ => isFalse (by intro hh; cases hh)
  | .error _, .ok _ => isFalse (by intro hh; cases hh)

/-! ### Claim theorems -/

/-- C8: for every `(Y, M, D)` with `Y ≥ 1` (a `u16` year), `1 ≤ M ≤ 12` and
`1 ≤ D ≤ days_per_month[M]` in the non-leap calendar, formatting the date as
`Y.M.D` and parsing the result with `Ck3Date::parse_from_str` yields back
exactly `(Y, M, D)`. -/
theorem claim_C8_date_roundtrip (y m d : Nat) (hy1 : 1 ≤ y) (hy2 : y < 65536)
    (hm1 : 1 ≤ m) (hm2 : m ≤ 12) (hd1 : 1 ≤ d) (hd2 : d ≤ daysPerMonth.getD m 0) :
    parseFromStr (Ck3Date.ck3Fmt ⟨y, m, d⟩) = some ⟨y, m, d⟩ :=
  parseFromStr_ck3Fmt y m d hy1 hy2 hm1 hm2 hd1 hd2

/-- Witness for C8 at the date `1444.11.11`. -/
theorem claim_C8_witness :
    parseFromStr (Ck3Date.ck3Fmt ⟨1444, 11, 11⟩) = some ⟨1444, 11, 11⟩ :=
  claim_C8_date_roundtrip 1444 11 11 (by decide) (by decide) (by decide) (by decide)
    (by decide) (by decide)

/-- C9: on an uncompressed text save, `Ck3File::meta` returns the first
`metadata_len` bytes of the body exactly when `metadata_len * 2` does not
exceed the body length, and the entire body when it does. -/
theorem claim_C9_meta_text (metadataLen : Nat) (body : List Char) :
    (¬ metadataLen * 2 > body.length →
      ck3MetaText metadataLen body = body.take metadataLen) ∧
    (metadataLen * 2 > body.length → ck3MetaText metadataLen body = body) := by
  constructor
  · intro h
    unfold ck3MetaText
    rw [if_neg h]
    congr 1
    omega
  · intro h
    unfold ck3MetaText
    rw [if_pos h]

/-- Witness for C9 on a four-byte body, at lengths 2 (within budget) and 3
(over budget). -/
theorem claim_C9_witness :
    ck3MetaText 2 ['a', 'b', 'c', 'd'] = List.take 2 ['a', 'b', 'c', 'd'] ∧
    ck3MetaText 3 ['a', 'b', 'c', 'd'] = ['a', 'b', 'c', 'd'] :=
  ⟨(claim_C9_meta_text 2 ['a', 'b', 'c', 'd']).1 (by decide),
    (claim_C9_meta_text 3 ['a', 'b', 'c', 'd']).2 (by decide)⟩

/-- C10: on an uncompressed text save, `Ck3Melter::melt` writes the stored
header (unchanged — it round-trips through `SaveHeader::parse`) followed by
the body bytes completely unchanged, and the returned document's
unknown-token set is empty; the resolver and options play no role (the
embedding `meltText` does not consult them). -/
theorem claim_C10_text_melt (hdr : SaveHeader) (body : List Char)
    (hlen : hdr.metadataLen < 2 ^ 64) :
    (meltText hdr body).1 = saveHeaderWrite hdr ++ body ∧
    (meltText hdr body).2 = ∅ ∧
    parseSaveHeader (meltText hdr body).1 = some hdr ∧
    ((meltText hdr body).1).drop 24 = body := by
  refine ⟨rfl, rfl, ?_, ?_⟩
  · show parseSaveHeader (saveHeaderWrite hdr ++ body) = some hdr
    rw [parseSaveHeader_write, Nat.mod_eq_of_lt hlen]
  · show (saveHeaderWrite hdr ++ body).drop 24 = body
    rw [← saveHeaderWrite_length hdr]
    exact List.drop_left _ _

/-- Witness for C10 with a binary-kind header of length 66 and body `ab`. -/
theorem claim_C10_witness :
    (meltText ⟨.unifiedBinary, 66⟩ ['a', 'b']).1
        = saveHeaderWrite ⟨.unifiedBinary, 66⟩ ++ ['a', 'b'] ∧
    (meltText ⟨.unifiedBinary, 66⟩ ['a', 'b']).2 = ∅ ∧
    parseSaveHeader (meltText ⟨.unifiedBinary, 66⟩ ['a', 'b']).1
        = some ⟨.unifiedBinary, 66⟩ ∧
    ((meltText ⟨.unifiedBinary, 66⟩ ['a', 'b']).1).drop 24 = ['a', 'b'] :=
  claim_C10_text_melt ⟨.unifiedBinary, 66⟩ ['a', 'b'] (by decide)

/-- C2 counterexample: at `save_game_version = 8` the two paths disagree — the
melting path picks `Ck3Flavor15` (the `v ≥ 6` flavor) while
`flavor_from_tape` (the deserialization path) only recognises `I32(6)` and
`I32(7)` and falls back to `Ck3Flavor10`, so the claimed common `v ≥ 6` rule
is false. -/
theorem claim_C2_counterexample :
    (6 : Int) ≤ 8 ∧
    meltFlavorSelect 8 = .flavor15 ∧
    flavorFromTape [.tokId 1423, .tokOpen, .tokId 1423, .tokI32 8] = .flavor10 := by
  refine ⟨by decide, rfl, rfl⟩

/-- C2 amended: the melting path selects `Ck3Flavor15` exactly for `v > 5`;
the deserialization path (`flavor_from_tape`) selects `Ck3Flavor15` exactly
when the third tape token is token `1423` and the fourth is `I32 6` or
`I32 7`, falling back to `Ck3Flavor10` otherwise; `Ck3Flavor15` needs no
float re-encoding while `Ck3Flavor10` does. -/
theorem claim_C2_amended :
    (∀ v : Int, meltFlavorSelect v = .flavor15 ↔ 6 ≤ v) ∧
    (∀ (t1 t2 : Tok) (v : Int) (rest : List Tok),
      flavorFromTape (t1 :: t2 :: .tokId 1423 :: .tokI32 v :: rest) = .flavor15 ↔
        (v = 6 ∨ v = 7)) ∧
    Ck3Flavor.flavor15.floatReencoding = false ∧
    Ck3Flavor.flavor10.floatReencoding = true := by
  refine ⟨?_, ?_, rfl, rfl⟩
  · intro v
    unfold meltFlavorSelect
    constructor
    · intro h
      by_contra hv
      rw [if_neg (by omega)] at h
      cases h
    · intro h
      rw [if_pos (by omega)]
  · intro t1 t2 v rest
    constructor
    · intro h
      unfold flavorFromTape at h
      split at h
      · next heq =>
          injection heq with e1 e2
          injection e2 with e3 e4
          injection e4 with e5 e6
          injection e6 with e7 e8
          injection e7 with e9
          omega
      · next heq =>
          injection heq with e1 e2
          injection e2 with e3 e4
          injection e4 with e5 e6
          injection e6 with e7 e8
          injection e7 with e9
          omega
      · cases h
    · rintro (rfl | rfl) <;> rfl

end Ck3Save

namespace Ck3Save

/-- `f32::EPSILON as f64` as an exact rational (`2⁻²³`). -/
def f32EpsilonQ : ℚ := 1 / 8388608

/-- C7: for every 8-byte little-endian array, the v≥6 flavor's `f64` decoder
returns `trunc(x + ε·sign(x)) / 100000` where `x = i64_le(data)` and
`ε = f32::EPSILON as f64` (`sign` being Rust's `signum`, which maps `+0.0` to
`1`); floats are modelled as exact rationals. -/
theorem claim_C7_flavor15_f64 (data : List Nat) :
    (Ck3Flavor.flavor15.visitF64 data).toRat =
      ((ratTruncToward0 ((i64FromLeBytes data : ℚ)
          + f32EpsilonQ * rustSignumQ ((i64FromLeBytes data : Int) : ℚ)) : ℤ) : ℚ) / 100000 := by
  simp only [Ck3Flavor.visitF64, Fx.toRat, fxDivPos, fxOfInt, fxTrunc, fxAdd, fxMul,
    f32Eps, fxSignumRust]
  norm_num
  congr 1
  set n : Int := i64FromLeBytes data with hn
  have harg : Fx.toRat ⟨n * 8388608 + (if n < 0 then (-1 : Int) else 1), 8388608⟩
      = (n : ℚ) + f32EpsilonQ * rustSignumQ ((n : Int) : ℚ) := by
    unfold Fx.toRat f32EpsilonQ rustSignumQ
    by_cases hneg : n < 0
    · rw [if_pos hneg, if_pos (by exact_mod_cast hneg)]
      push_cast
      ring
    · rw [if_neg hneg, if_neg (by exact_mod_cast hneg)]
      push_cast
      ring
  have htr := fxTrunc_toRat ⟨n * 8388608 + (if n < 0 then (-1 : Int) else 1), 8388608⟩
    (by norm_num)
  rw [harg] at htr
  exact_mod_cast congrArg (fun z : Int => (z : ℚ)) htr

end Ck3Save

namespace Ck3Save

/-- A small concrete token dictionary used by the concrete evaluations. -/
def resW : Nat → Option String := fun n =>
  if n = 1423 then some "save_game_version"
  else if n = 10 then some "meta_data"
  else if n = 12 then some "ironman"
  else if n = 13 then some "birth"
  else if n = 14 then some "alive_data"
  else if n = 15 then some "gold"
  else none

/-- The header of a concrete unified binary save. -/
def hdrW : SaveHeader := ⟨.unifiedBinary, 0⟩

/-- The six-token `save_game_version = { save_game_version = 7` preamble. -/
def preW : List Tok :=
  [.tokId 1423, .tokEqual, .tokOpen, .tokId 1423, .tokEqual, .tokI32 7]

/-- C1: whenever a binary melt succeeds, the output begins with a 24-byte
header of kind `Text` whose `metadata_len` field equals the length of the
metadata buffer (the first-pass output plus the single appended newline), and
the bytes after the header start with exactly that buffer. -/
theorem claim_C1_header_patch (res : Nat → Option String) (opts : MeltOptions)
    (hdr : SaveHeader) (ts : List Tok) (m : List Char) (unk : Finset Nat)
    (h : meltTokens res opts hdr ts = .ok (m, unk)) :
    ∃ data rest, m = saveHeaderWrite ⟨.text, data.length⟩ ++ data ++ rest
      ∧ (saveHeaderWrite ⟨.text, data.length⟩).length = 24
      ∧ data.getLast? = some '\n'
      ∧ (data.length < 2 ^ 64 → parseSaveHeader m = some ⟨.text, data.length⟩) := by
  unfold meltTokens at h
  repeat' split at h
  all_goals cases h
  rename_i x1 w1 remaining unk1 hph1 x2 w2 rem2 hph2
  refine ⟨w1.out ++ ['\n'], w2.out, rfl, saveHeaderWrite_length _, List.getLast?_concat _, ?_⟩
  intro hlen
  rw [List.append_assoc, parseSaveHeader_write, Nat.mod_eq_of_lt hlen]

set_option maxRecDepth 8000 in
/-- Witness for C1 on the smallest save `save_game_version={save_game_version=7}`. -/
theorem claim_C1_witness :
    ∃ m unk, meltTokens resW meltOptionsNew hdrW (preW ++ [Tok.tokClose]) = .ok (m, unk)
      ∧ ∃ data rest, m = saveHeaderWrite ⟨.text, data.length⟩ ++ data ++ rest
          ∧ (saveHeaderWrite ⟨.text, data.length⟩).length = 24
          ∧ data.getLast? = some '\n'
          ∧ (data.length < 2 ^ 64 → parseSaveHeader m = some ⟨.text, data.length⟩) := by
  refine ⟨_, _, rfl, ?_⟩
  exact claim_C1_header_patch resW meltOptionsNew hdrW (preW ++ [Tok.tokClose]) _ _ rfl

/-! ### Fixtures and claims C3-C6 -/

/-- Does `l` start with `pat`? -/
def startsWithL : List Char → List Char → Bool
  | [], _ => true
  | _ :: _, [] => false
  | a :: as, b :: bs => a == b && startsWithL as bs

/-- Does `pat` occur as a contiguous run inside `l`? -/
def hasSubSeq (pat : List Char) : List Char → Bool
  | [] => startsWithL pat []
  | c :: rest => startsWithL pat (c :: rest) || hasSubSeq pat rest

/-- Every `Id` token of the list is resolvable by `res`. -/
def allIdsResolvable (res : Nat → Option String) (ts : List Tok) : Bool :=
  ts.all fun t =>
    match t with
    | .tokId x => (res x).isSome
    | _ => true

/-- A body whose only entry is the *unquoted scalar* key `ironman`. -/
def ironTextToks : List Tok :=
  preW ++ [.tokUnquoted "ironman", .tokEqual, .tokBool true, .tokClose]

/-- A body whose only entry is an unresolvable id key (id `99`). -/
def unkSkipToks : List Tok :=
  preW ++ [.tokId 99, .tokEqual, .tokBool true, .tokClose]

/-- A body whose only entry is `birth = 0` (an invalid binary date). -/
def birthToks : List Tok :=
  preW ++ [.tokId 13, .tokEqual, .tokI32 0, .tokClose]

/-- A body whose only entry is `ironman = { <id 99> }`: the unresolvable id
occurs inside a container skipped by the ironman suppression. -/
def ironSkipToks : List Tok :=
  preW ++ [.tokId 12, .tokEqual, .tokOpen, .tokId 99, .tokClose, .tokClose]

/-- Little-endian bytes of the i64 `32768` (the flavor-10 f64 `32.768`). -/
def goldBytes : List Nat := [0, 128, 0, 0, 0, 0, 0, 0]

/-- A version-1 (flavor-10) save holding `alive_data = { gold = 32.768 }`. -/
def goldToks : List Tok :=
  [.tokId 1423, .tokEqual, .tokOpen, .tokId 1423, .tokEqual, .tokI32 1, .tokClose,
   .tokId 14, .tokEqual, .tokOpen, .tokId 15, .tokEqual, .tokF64 goldBytes, .tokClose]

set_option maxRecDepth 8000 in
/-- C3 counterexample: an `Unquoted` scalar key spelled `ironman` is not an
id token, is never looked up, and is written verbatim, so the melted output of
this save does contain the substring `ironman=`. -/
theorem claim_C3_counterexample :
    ∃ m unk, meltTokens resW meltOptionsNew hdrW ironTextToks = .ok (m, unk)
      ∧ hasSubSeq (String.toList "ironman=") m = true := by
  refine ⟨_, _, rfl, ?_⟩
  decide

/-- C3 (amended scope): whenever an *id token* at a key position resolves to
`ironman` or `ironman_manager` outside verbatim mode (and no quoted buffer is
pending), one loop iteration consumes the key and its whole value (through
`skipValue`) while leaving the writer, the state and the unknown set
untouched: melting continues exactly as if the suppressed entry were absent. -/
theorem claim_C3_amended (fl : Ck3Flavor) (res : Nat → Option String)
    (opts : MeltOptions) (hb : Bool) (f : Nat) (t : Nat) (name : String)
    (tail : List Tok) (w : Wtr) (st : MState) (unk : Finset Nat) (rest : List Tok)
    (hres : res t = some name)
    (hname : name = "ironman" ∨ name = "ironman_manager")
    (hverb : opts.verbatim = false)
    (hkey : w.expectingKey = true)
    (hbuf : st.quotedBufferEnabled = false)
    (hskip : skipValue tail = some rest) :
    innerMelt fl res opts hb (f + 1) (.tokId t :: tail) w st unk
      = innerMelt fl res opts hb f rest w st unk := by
  rw [innerMelt_succ_cons]
  have hstep : innerMeltStep fl res opts hb (.tokId t) tail w st unk
      = .cont w st unk rest := by
    unfold innerMeltStep
    rw [if_neg (by rw [hbuf]; exact Bool.false_ne_true)]
    simp only [innerMeltTok, hres, hskip]
    rw [if_pos ⟨hverb, hname, hkey⟩]
  rw [hstep]

/-- C3 witness: the suppression fires on the concrete entry
`<id 12 = ironman> = yes`. -/
theorem claim_C3_witness :
    resW 12 = some "ironman"
      ∧ innerMelt .flavor15 resW meltOptionsNew false 2
          [Tok.tokId 12, Tok.tokEqual, Tok.tokBool true] Wtr.init MState.init ∅
        = innerMelt .flavor15 resW meltOptionsNew false 1 [] Wtr.init MState.init ∅ :=
  ⟨rfl, claim_C3_amended .flavor15 resW meltOptionsNew false 1 12 "ironman"
    [Tok.tokEqual, Tok.tokBool true] Wtr.init MState.init ∅ [] rfl (Or.inl rfl)
    rfl rfl rfl rfl⟩

set_option maxRecDepth 8000 in
/-- C4 (code bug): in the save `alive_data = { gold = 32.768 }` under the
re-encoding flavor the melter emits `gold=32.768` unchanged, although the
re-encoded value would be `1`: `Blocks::push` preserves `in_alive_data`
(it never sets it), `Blocks::pop` only ever clears it, so the `gold` arm
(`in_alive_data && name == "gold"`) can never latch the re-encoding flag that
the `vassal_power_value` family of keys latches unconditionally. -/
theorem claim_C4_code_bug :
    (∃ m, meltTokens resW meltOptionsNew hdrW goldToks = .ok (m, ∅)
        ∧ hasSubSeq (String.toList "gold=32.768") m = true)
    ∧ Ck3Flavor.flavor10.floatReencoding = true
    ∧ renderFxPlain (reencodeFloat (Ck3Flavor.flavor10.visitF64 goldBytes)) = ['1']
    ∧ (∀ bl : Blocks, (bl.push).inAliveData = bl.inAliveData)
    ∧ (∀ bl : Blocks, (bl.pop).inAliveData = bl.inAliveData ∨ (bl.pop).inAliveData = false)
    ∧ (∀ fl st, (resolvedIdState fl "gold" st).reencodeFloatToken
        = (st.block.inAliveData && fl.floatReencoding))
    ∧ (∀ fl st, (resolvedIdState fl "vassal_power_value" st).reencodeFloatToken
        = fl.floatReencoding) := by
  refine ⟨⟨_, rfl, by decide⟩, rfl, by decide, fun bl => rfl, ?_, ?_, fun fl st => rfl⟩
  · intro bl
    rcases bl with ⟨q, data, ai, al⟩
    rcases data with _ | ⟨x, t⟩
    · exact Or.inl rfl
    · cases x
      · exact Or.inr rfl
      · exact Or.inl rfl
      · exact Or.inl rfl
  · intro fl st
    rcases st with ⟨r1, r2, r3, r4, r5, r6, bl⟩
    rcases bl with ⟨q, dd, ai, al⟩
    cases al <;> cases fl <;> rfl

set_option maxRecDepth 8000 in
/-- C5 counterexample: under `Ignore`, the unresolvable id `99` sits at a key
position, so the melter skips key and value without recording the id: the
melt succeeds with an *empty* unknown-token set although `Id 99` occurs in
the input and is unresolvable. -/
theorem claim_C5_counterexample :
    ∃ m, meltTokens resW ⟨false, .ignore⟩ hdrW unkSkipToks = .ok (m, ∅)
      ∧ resW 99 = none ∧ Tok.tokId 99 ∈ unkSkipToks := by
  refine ⟨_, rfl, rfl, by decide⟩

/-- C5 (amended): under `Ignore` an unresolved identifier never fails the
melt (`UnknownToken` is unreachable; the only residual failures are the
malformed-header and end-of-input cases), and an unresolved id encountered at
a *non-key* position is recorded in the returned unknown-token set. -/
theorem claim_C5_amended :
    (∀ res opts hdr ts x, opts.onFailedResolve = .ignore →
      meltTokens res opts hdr ts ≠ .error (.unknownToken x))
    ∧ (∀ fl res opts hb f x tail w st unk r, opts.onFailedResolve = .ignore →
        res x = none → w.expectingKey = false → st.quotedBufferEnabled = false →
        innerMelt fl res opts hb (f + 1) (.tokId x :: tail) w st unk = .ok r →
        x ∈ r.2.2) := by
  constructor
  · intro res opts hdr ts x hig h
    unfold meltTokens at h
    repeat' split at h
    all_goals cases h
    all_goals rename_i heq
    all_goals have hh := innerMelt_ignore_err _ _ _ _ hig _ _ _ _ _ _ heq
    all_goals cases hh
  · intro fl res opts hb f x tail w st unk r hig hres hkey hbuf h
    rw [innerMelt_succ_cons] at h
    have hstep : innerMeltStep fl res opts hb (.tokId x) tail w st unk
        = .cont (w.writeScalarRaw (unknownName x)) st (insert x unk) tail := by
      unfold innerMeltStep
      rw [if_neg (by rw [hbuf]; exact Bool.false_ne_true)]
      simp only [innerMeltTok, hres, hig]
      rw [if_neg (by rw [hkey]; exact Bool.false_ne_true)]
    rw [hstep] at h
    exact (innerMelt_unknown_mono fl res opts hb _ _ _ _ _ _ h)
      (Finset.mem_insert_self x unk)

/-- C5 witness: part one at the skipping save (the melt does not fail with
`UnknownToken 99`), part two at a bare unresolvable id inside a container
(the id lands in the unknown set). -/
theorem claim_C5_witness :
    meltTokens resW ⟨false, .ignore⟩ hdrW unkSkipToks ≠ .error (.unknownToken 99)
      ∧ resW 99 = none ∧ Wtr.init.writeStart.expectingKey = false
      ∧ MState.init.quotedBufferEnabled = false
      ∧ ∃ r, innerMelt .flavor15 resW ⟨false, .ignore⟩ false 1 [Tok.tokId 99]
            Wtr.init.writeStart MState.init ∅ = .ok r ∧ 99 ∈ r.2.2 := by
  refine ⟨claim_C5_amended.1 resW ⟨false, .ignore⟩ hdrW unkSkipToks 99 rfl,
    rfl, rfl, rfl, _, rfl, ?_⟩
  exact claim_C5_amended.2 .flavor15 resW ⟨false, .ignore⟩ false 0 99 [] Wtr.init.writeStart
    MState.init ∅ _ rfl rfl rfl rfl rfl

set_option maxRecDepth 8000 in
/-- C6 counterexample: with `on_failed_resolve = Error`, the save
`birth = 0` has every id resolvable, yet the melt fails (`InvalidDate 0`):
failure is not equivalent to the presence of an unresolvable identifier. -/
theorem claim_C6_counterexample :
    allIdsResolvable resW birthToks = true
      ∧ meltTokens resW ⟨false, .error⟩ hdrW birthToks = .error (.invalidDate 0) := by
  exact ⟨rfl, by decide⟩

/-- C6 (amended): under `Error`, an id the melter actually *looks up* and
fails to resolve aborts the melt with `UnknownToken` (the forward half that
survives); but melting can fail for other reasons (see the counterexample's
`InvalidDate`), and an unresolvable id inside a region skipped by the ironman
suppression is never looked up: the concrete save
`ironman = { <id 99> }` melts successfully although id `99` is unresolvable. -/
theorem claim_C6_amended :
    (∀ fl res (opts : MeltOptions) hb f x (tail : List Tok) w st (unk : Finset Nat),
      opts.onFailedResolve = .error → res x = none → st.quotedBufferEnabled = false →
      innerMelt fl res opts hb (f + 1) (.tokId x :: tail) w st unk
        = .error (.unknownToken x))
    ∧ resW 99 = none
    ∧ Tok.tokId 99 ∈ ironSkipToks
    ∧ ∃ m unk, meltTokens resW ⟨false, .error⟩ hdrW ironSkipToks = .ok (m, unk) := by
  refine ⟨?_, rfl, by decide, ?_⟩
  · intro fl res opts hb f x tail w st unk herr hres hbuf
    rw [innerMelt_succ_cons]
    have hstep : innerMeltStep fl res opts hb (.tokId x) tail w st unk
        = .fail (.unknownToken x) := by
      unfold innerMeltStep
      rw [if_neg (by rw [hbuf]; exact Bool.false_ne_true)]
      simp only [innerMeltTok, hres, herr]
    rw [hstep]
  · exact ⟨_, _, rfl⟩

/-- C6 witness: the forward half at the concrete unresolvable id `99`. -/
theorem claim_C6_witness :
    resW 99 = none
      ∧ innerMelt .flavor15 resW ⟨false, .error⟩ false 1 [Tok.tokId 99]
          Wtr.init MState.init ∅ = .error (.unknownToken 99) :=
  ⟨rfl, claim_C6_amended.1 .flavor15 resW ⟨false, .error⟩ false 0 99 [] Wtr.init
    MState.init ∅ rfl rfl rfl⟩

end Ck3Save
